import Mathlib

/-!
Verification of the bracoxide brace-expansion library.

The development shallowly embeds the three stages of the library:

* `src/tokenizer.rs` — the `Tokenizer` state machine producing a
  position-keyed token map (`TokenMap = HashMap<usize, TokenKind>`),
  embedded below in namespace `Brx` (`Brx.scanT`, `Brx.tokenizeT`);
* `src/lib.rs` — the older free function `tokenize` producing a
  `Vec<Token>`, embedded in namespace `Brx.Lib`;
* `src/parser.rs` — `Parser` (`seperate`, `text`, `range`, `collection`,
  `reparse`, `parse`), embedded in namespace `Brx.Parser`;
* the expander, absent from the given sources (only `main.rs` calls
  `bracoxide::expand`), modelled from the specification.

Rust `usize` values (positions, lengths, counters) are embedded as `Nat`:
they only ever grow by 1 per input character, so overflow is unreachable
for any realizable input and the embedding drops the `% 2^64`.

The Rust `HashMap<usize, TokenKind>` is embedded as an association list
`List (Nat × TokenKind)` together with a replacing insert (`mapInsert`)
and a first-match lookup (`findVal`); `mapInsert` keeps keys distinct, so
`findVal` agrees with `HashMap::get`.  The list order stands for the
unspecified iteration order of the map.
-/

namespace Brx

/-- The opening brace character. -/
def obC : Char := '\x7b'

/-- The closing brace character. -/
def cbC : Char := '\x7d'

/-- `TokenKind` from src/tokenizer.rs. -/
inductive TokenKind where
  | OpeningBracket
  | ClosingBracket
  | Comma
  | Text (len : Nat)
  | Number (len : Nat)
  | Range
  | Empty (len : Nat)
deriving DecidableEq, Repr

/-- `TokenMap = HashMap<usize, TokenKind>` embedded as an association
list; the list order models the iteration order of the map. -/
abbrev TokenMap := List (Nat × TokenKind)

/-- `HashMap::insert` (replacing semantics). -/
def mapInsert (m : TokenMap) (k : Nat) (v : TokenKind) : TokenMap :=
  if m.any (fun p => p.1 = k) then
    m.map (fun p => if p.1 = k then (k, v) else p)
  else
    m ++ [(k, v)]

/-- `HashMap::get` on the association-list embedding. -/
def findVal (m : TokenMap) (k : Nat) : Option TokenKind :=
  match m with
  | [] => none
  | (k2, v) :: rest => if k2 = k then some v else findVal rest k

/-- The `State` enum of the tokenizer from src/tokenizer.rs. -/
inductive State where
  | Escape
  | Comma
  | Opening
  | Closing
  | Text
  | Number
  | None
deriving DecidableEq, Repr

/-- `TokenizationError` from src/tokenizer.rs. -/
inductive TokenizationError where
  | NoContent
  | EmptyBraces
  | BracesDontMatch
  | NoBraces
  | NothingToEscape
deriving DecidableEq, Repr

/-- The `Tokenizer` struct from src/tokenizer.rs (minus the borrowed
`content`, which the scan never reads).  `count` is the pair
(opening-bracket count, closing-bracket count); `textCut` and
`numberCut` are (start position, length) of the pending buffers. -/
structure Tokenizer where
  state : State
  textCut : Nat × Nat
  numberCut : Nat × Nat
  count : Nat × Nat
  tokens : TokenMap
deriving DecidableEq, Repr

/-- The initial state built by `Tokenizer::new`. -/
def initTokenizer : Tokenizer :=
  { state := .None, textCut := (0, 0), numberCut := (0, 0),
    count := (0, 0), tokens := [] }

/-- `Tokenizer::insert_token`. -/
def insertTok (t : Tokenizer) (pos : Nat) (kind : TokenKind) : Tokenizer :=
  { t with tokens := mapInsert t.tokens pos kind }

/-- `Tokenizer::tokenize_number`. -/
def tokenizeNumber (t : Tokenizer) : Tokenizer :=
  if t.numberCut.2 > 0 then
    { insertTok t t.numberCut.1 (.Number t.numberCut.2) with numberCut := (0, 0) }
  else t

/-- `Tokenizer::tokenize_text`. -/
def tokenizeText (t : Tokenizer) : Tokenizer :=
  if t.textCut.2 > 0 then
    { insertTok t t.textCut.1 (.Text t.textCut.2) with textCut := (0, 0) }
  else t

/-- `Tokenizer::tokenize_buffers` (text first, then number). -/
def tokenizeBuffers (t : Tokenizer) : Tokenizer :=
  tokenizeNumber (tokenizeText t)

/-- `Tokenizer::text_start`. -/
def textStart (t : Tokenizer) (pos : Nat) : Tokenizer :=
  let t := tokenizeNumber t
  { t with textCut := (pos, 1), state := .Text }

/-- `Tokenizer::number_start`. -/
def numberStart (t : Tokenizer) (pos : Nat) : Tokenizer :=
  let t := tokenizeText t
  { t with numberCut := (pos, 1), state := .Number }

/-- `Tokenizer::insert_opening`. -/
def insertOpening (t : Tokenizer) (pos : Nat) : Tokenizer :=
  { insertTok t pos .OpeningBracket with
      count := (t.count.1 + 1, t.count.2), state := .Opening }

/-- `Tokenizer::insert_closing`. -/
def insertClosing (t : Tokenizer) (pos : Nat) : Tokenizer :=
  { insertTok t pos .ClosingBracket with
      count := (t.count.1, t.count.2 + 1), state := .Closing }

/-- Length of the leading run of commas (the commacounter scan of
`Tokenizer::tokenize`). -/
def countCommas : List Char → Nat
  | [] => 0
  | c :: r => if c = ',' then countCommas r + 1 else 0

/-- The main scan loop of `Tokenizer::tokenize` (src/tokenizer.rs,
the labelled while-let loop over `(i, c)` pairs).  `fuel` only bounds
the recursion; every iteration consumes at least one character, so
`fuel = content.length` makes the bound unreachable. -/
def scanT : Nat → Tokenizer → Nat → List Char → Except TokenizationError Tokenizer
  | 0, t, _, _ => .ok t
  | _ + 1, t, _, [] => .ok t
  | fuel + 1, t, i, c :: rest =>
    if t.state = .Escape then
      scanT fuel (textStart t i) (i + 1) rest
    else if c = '\\' then
      scanT fuel { tokenizeBuffers t with state := .Escape } (i + 1) rest
    else if c.isDigit then
      if t.state = .Number then
        scanT fuel { t with numberCut := (t.numberCut.1, t.numberCut.2 + 1) } (i + 1) rest
      else
        scanT fuel (numberStart t i) (i + 1) rest
    else if c = '.' then
      if t.state = .Text then
        scanT fuel { t with textCut := (t.textCut.1, t.textCut.2 + 1) } (i + 1) rest
      else if t.state = .None ∨ t.state = .Number then
        let t2 := tokenizeNumber t
        if rest.head? = some '.' then
          scanT fuel { insertTok t2 i .Range with state := .None } (i + 2) rest.tail
        else if rest.isEmpty then
          .ok (insertTok t2 i (.Text 1))
        else
          scanT fuel (textStart t2 i) (i + 1) rest
      else
        scanT fuel (textStart t i) (i + 1) rest
    else if c = obC then
      scanT fuel (insertOpening (tokenizeBuffers t) i) (i + 1) rest
    else if c = cbC then
      if t.state = .Opening then .error .EmptyBraces
      else scanT fuel (insertClosing (tokenizeBuffers t) i) (i + 1) rest
    else if c = ',' then
      if (t.count.1 = 0 ∨ t.count.1 = t.count.2) ∧ t.state ≠ .Opening then
        if t.textCut.2 ≥ 1 then
          scanT fuel { t with textCut := (t.textCut.1, t.textCut.2 + 1) } (i + 1) rest
        else
          scanT fuel (textStart (tokenizeBuffers t) i) (i + 1) rest
      else
        let t2 := tokenizeBuffers t
        let k := countCommas rest
        if (rest.drop k).head? = some cbC then
          scanT fuel (insertClosing (insertTok t2 i (.Empty (1 + k))) (i + 1 + k))
            (i + 2 + k) (rest.drop k).tail
        else
          let t3 := if 1 + k > 1 ∨ t.state = .Opening then
              insertTok t2 i (.Empty (1 + k))
            else
              insertTok t2 i .Comma
          scanT fuel { t3 with state := .Comma } (i + 1 + k) (rest.drop k)
    else if t.state = .Text then
      scanT fuel { t with textCut := (t.textCut.1, t.textCut.2 + 1) } (i + 1) rest
    else
      scanT fuel (textStart (tokenizeBuffers t) i) (i + 1) rest

/-- `Tokenizer::new` followed by `Tokenizer::tokenize`, returning the
final tokenizer on success (the Rust method returns `Ok(())` and leaves
the tokens in `self`). -/
def tokenizeRun (content : List Char) : Except TokenizationError Tokenizer :=
  if content.isEmpty then .error .NoContent
  else
    match scanT content.length initTokenizer 0 content with
    | .error e => .error e
    | .ok t =>
      let t := tokenizeBuffers t
      if t.state = .Escape then .error .NothingToEscape
      else if t.count = (0, 0) then .error .NoBraces
      else if t.count.1 ≠ t.count.2 then .error .BracesDontMatch
      else .ok t

/-- The token map produced by a successful `Tokenizer::tokenize`. -/
def tokenizeT (content : List Char) : Except TokenizationError TokenMap :=
  (tokenizeRun content).map Tokenizer.tokens

/-! ## Parser (src/parser.rs) -/

namespace Parser

/-- `ParsingError` from src/parser.rs. -/
inductive ParsingError where
  | NoContent
  | NoTokens
  | NoFragment
  | ExtraOpeningBracket (pos : Nat)
  | ExtraClosingBracket (pos : Nat)
  | OpeningBracketExpected (pos : Nat)
  | NoCommaInRange (pos : Nat)
  | NoTextInRange (pos : Nat)
  | ExtraRange (pos : Nat)
  | ExpectedText (pos : Nat)
  | StartLimitExpected (pos : Nat)
  | EndLimitExpected (pos : Nat)
  | NothingInBraces (pos : Nat)
deriving DecidableEq, Repr

/-- `Node` from src/parser.rs, without the `cfg(test)`-only `start`/`end`
fields (the non-test build has none).  The Rust field names `prefix` and
`postfix` are rendered `pre` and `post`. -/
inductive Node where
  | Text (content : String)
  | BraceExpansion (pre inside post : Option Node)
  | Collection (items : List Node)
  | Range (lo hi : String)

/-- The parser reads the token map only through `HashMap::get`; the
embedding passes that lookup as a function. -/
abbrev TokGet := Nat → Option TokenKind

/-- The lookup of a concrete token map. -/
def tokGet (m : TokenMap) : TokGet := fun k => findVal m k

/-- `Parser::get_a_slice_of_cake`: characters `[start, stop)` of the
input. -/
def slice (content : List Char) (start stop : Nat) : String :=
  String.mk ((content.drop start).take (stop - start))

/-- The 3-state walk of `Parser::seperate`. -/
inductive WalkState where
  | WPre
  | WInside
  | WPost
deriving DecidableEq, Repr

/-- Loop state of `Parser::seperate`. -/
structure SepSt where
  count : Nat × Nat
  pre : List Nat
  inside : List Nat
  post : List Nat
  ws : WalkState
deriving Repr

/-- Append a token index to the segment currently being walked. -/
def pushCur (st : SepSt) (ti : Nat) : SepSt :=
  match st.ws with
  | .WPre => { st with pre := st.pre ++ [ti] }
  | .WInside => { st with inside := st.inside ++ [ti] }
  | .WPost => { st with post := st.post ++ [ti] }

/-- One iteration of the loop in `Parser::seperate`.  A missing token
(the missing else of the if-let) is the unreachable-panic of the source,
modelled as the `NoFragment` error. -/
def sepStep (g : TokGet) (st : SepSt) (ti : Nat) : Except ParsingError SepSt :=
  match g ti with
  | some .OpeningBracket =>
    let st := { st with count := (st.count.1 + 1, st.count.2) }
    match st.ws with
    | .WPre => .ok { st with ws := .WInside, inside := st.inside ++ [ti] }
    | .WInside => .ok { st with inside := st.inside ++ [ti] }
    | .WPost => .ok { st with post := st.post ++ [ti] }
  | some .ClosingBracket =>
    match st.ws with
    | .WPre => .error (.ExtraClosingBracket ti)
    | .WInside =>
      let c := (st.count.1, st.count.2 + 1)
      .ok { st with count := c, inside := st.inside ++ [ti],
                    ws := if c.1 = c.2 then .WPost else .WInside }
    | .WPost =>
      .ok { st with count := (st.count.1, st.count.2 + 1), post := st.post ++ [ti] }
  | some .Comma =>
    if st.ws = .WPre then .error (.OpeningBracketExpected ti) else .ok (pushCur st ti)
  | some .Range =>
    if st.ws = .WPre then .error (.OpeningBracketExpected ti) else .ok (pushCur st ti)
  | some _ => .ok (pushCur st ti)
  | none => .error .NoFragment

/-- An empty segment becomes `None`. -/
def optOfList (l : List Nat) : Option (List Nat) :=
  if l.isEmpty then none else some l

/-- `Parser::seperate`. -/
def seperate (g : TokGet) (frag : List Nat) :
    Except ParsingError (Option (List Nat) × Option (List Nat) × Option (List Nat)) :=
  if frag.isEmpty then .error .NoFragment
  else do
    let st ← frag.foldlM (sepStep g)
      { count := (0, 0), pre := [], inside := [], post := [], ws := .WPre }
    .ok (optOfList st.pre, optOfList st.inside, optOfList st.post)

/-- One iteration of the loop in `Parser::text`; a missing token is
skipped (the if-let of the source has no else branch). -/
def textStep (content : List Char) (g : TokGet) (acc : String) (ti : Nat) :
    Except ParsingError String :=
  match g ti with
  | some (.Text l) => .ok (acc ++ slice content ti (ti + l))
  | some (.Number l) => .ok (acc ++ slice content ti (ti + l))
  | some (.Empty _) => .ok acc
  | some _ => .error (.ExpectedText ti)
  | none => .ok acc

/-- `Parser::text`. -/
def textP (content : List Char) (g : TokGet) (frag : List Nat) :
    Except ParsingError Node :=
  if frag.isEmpty then .error .NoFragment
  else (frag.foldlM (textStep content g) "").map .Text

/-- The internal state enum of `Parser::range`. -/
inductive RState where
  | First
  | RangeSt
  | Second
deriving DecidableEq, Repr

/-- Loop state of `Parser::range`. -/
structure RangeAcc where
  start : Bool
  pos : Nat × Nat
  rstate : RState
  lo : String
  hi : String
deriving Repr

/-- One iteration of the loop in `Parser::range`; a missing token is
skipped. -/
def rangeStep (content : List Char) (g : TokGet) (acc : RangeAcc) (ti : Nat) :
    Except ParsingError RangeAcc :=
  match g ti with
  | some .OpeningBracket => .error (.ExtraOpeningBracket ti)
  | some .ClosingBracket => .error (.ExtraClosingBracket ti)
  | some (.Empty _) => .error (.NoCommaInRange ti)
  | some .Comma => .error (.NoCommaInRange ti)
  | some (.Text _) => .error (.NoTextInRange ti)
  | some (.Number l) =>
    match acc.rstate with
    | .First =>
      let acc := if acc.start then { acc with pos := (ti, acc.pos.2), start := false } else acc
      .ok { acc with lo := acc.lo ++ slice content ti (ti + l) }
    | .RangeSt =>
      .ok { acc with rstate := .Second, hi := acc.hi ++ slice content ti (ti + l),
                     pos := (acc.pos.1, ti + l) }
    | .Second =>
      .ok { acc with hi := acc.hi ++ slice content ti (ti + l), pos := (acc.pos.1, ti + l) }
  | some .Range =>
    match acc.rstate with
    | .First =>
      if acc.start then .error (.StartLimitExpected ti)
      else .ok { acc with rstate := .RangeSt, pos := (acc.pos.1, ti + 2) }
    | .RangeSt => .error (.ExtraRange ti)
    | .Second => .error (.ExtraRange ti)
  | none => .ok acc

/-- `Parser::range`. -/
def rangeP (content : List Char) (g : TokGet) (frag : List Nat) :
    Except ParsingError Node :=
  if frag.isEmpty then .error .NoFragment
  else do
    let acc ← frag.foldlM (rangeStep content g)
      { start := true, pos := (0, 0), rstate := .First, lo := "", hi := "" }
    if acc.hi = "" then .error (.EndLimitExpected acc.pos.2)
    else .ok (.Range acc.lo acc.hi)

/-- Loop state of the item-splitting loop of `Parser::collection`. -/
structure CollSt where
  pos : Nat × Nat
  count : Nat × Nat
  collections : List (List Nat)
  current : List Nat
deriving Repr

/-- One iteration of the splitting loop of `Parser::collection`; a
missing token is skipped. -/
def collStep (g : TokGet) (st : CollSt) (ti : Nat) : CollSt :=
  match g ti with
  | some (.Empty _) =>
    if st.count.1 = st.count.2 + 1 then
      { st with
          collections := st.collections ++
            (if st.current.isEmpty then [] else [st.current]) ++ [[ti]],
          current := [] }
    else { st with current := st.current ++ [ti] }
  | some .Comma =>
    if st.count.1 = st.count.2 + 1 then
      { st with
          collections := st.collections ++
            (if st.current.isEmpty then [] else [st.current]),
          current := [] }
    else { st with current := st.current ++ [ti] }
  | some .OpeningBracket =>
    if st.count.1 = 0 then
      { st with pos := (ti, st.pos.2), count := (st.count.1 + 1, st.count.2) }
    else
      { st with current := st.current ++ [ti], count := (st.count.1 + 1, st.count.2) }
  | some .ClosingBracket =>
    if st.count.1 = st.count.2 + 1 then
      { st with pos := (st.pos.1, ti), count := (st.count.1, st.count.2 + 1) }
    else
      { st with current := st.current ++ [ti], count := (st.count.1, st.count.2 + 1) }
  | some _ => { st with current := st.current ++ [ti] }
  | none => st

/-- The splitting loop of `Parser::collection` over a whole fragment. -/
def collSplit (g : TokGet) (frag : List Nat) : CollSt :=
  frag.foldl (collStep g) { pos := (0, 0), count := (0, 0), collections := [], current := [] }

/-- The item fragments of `Parser::collection` (the trailing non-empty
`current` is appended after the loop). -/
def colsOf (st : CollSt) : List (List Nat) :=
  st.collections ++ (if st.current.isEmpty then [] else [st.current])

/-- `postfix.iter().any(|ti| matches!(get(ti).unwrap(), OpeningBracket | ClosingBracket))`
(an `unwrap` of a missing token counts as no bracket). -/
def hasBracket (g : TokGet) (frag : List Nat) : Bool :=
  frag.any fun ti =>
    match g ti with
    | some .OpeningBracket => true
    | some .ClosingBracket => true
    | _ => false

/-- `collection.iter().any(|t| matches!(get(t).unwrap(), Range))`. -/
def hasRange (g : TokGet) (frag : List Nat) : Bool :=
  frag.any fun ti =>
    match g ti with
    | some .Range => true
    | _ => false

/-- The fuelled parser result: `none` is fuel exhaustion (unreachable
for the fuel chosen by `parse`), `some` the Rust `Result`. -/
abbrev PRes (α : Type) := Option (Except ParsingError α)

/-- Error-propagating bind on `PRes` (the Rust `match`/`return Err(e)`
plumbing). -/
def pBind {α β : Type} (x : PRes α) (f : α → PRes β) : PRes β :=
  match x with
  | none => none
  | some (.error e) => some (.error e)
  | some (.ok a) => f a

/-- A plain `Result` as a fuelled result. -/
def pOf {α : Type} (x : Except ParsingError α) : PRes α := some x

mutual

/-- `Parser::reparse`.  The mutual recursion of `reparse` and
`collection` is bounded by `fuel`; recursion only ever descends to
strictly shorter fragments, so the fuel chosen by `parse` is never
exhausted. -/
def reparseF : Nat → List Char → TokGet → List Nat → PRes Node
  | 0, _, _, _ => none
  | fuel + 1, content, g, frag =>
    if frag.isEmpty then pOf (.error .NoFragment)
    else
      pBind (pOf (seperate g frag)) fun sp =>
      pBind (match sp.1 with
             | none => pOf (.ok none)
             | some pf => pOf ((textP content g pf).map some)) fun preN =>
      pBind (match sp.2.1 with
             | none => pOf (.ok none)
             | some inf => pBind (collectionF fuel content g inf) fun n => pOf (.ok (some n))) fun insN =>
      pBind (match sp.2.2 with
             | none => pOf (.ok none)
             | some sf =>
               if hasBracket g sf then
                 pBind (reparseF fuel content g sf) fun n => pOf (.ok (some n))
               else
                 pOf ((textP content g sf).map some)) fun postN =>
      pOf (.ok (.BraceExpansion preN insN postN))

/-- `Parser::collection`. -/
def collectionF : Nat → List Char → TokGet → List Nat → PRes Node
  | 0, _, _, _ => none
  | fuel + 1, content, g, frag =>
    if frag.isEmpty then pOf (.error .NoFragment)
    else
      let st := collSplit g frag
      match colsOf st with
      | [] => pOf (.error (.NothingInBraces st.pos.1))
      | [col] =>
        if hasRange g col then pOf (rangeP content g col)
        else pOf (textP content g col)
      | cols =>
        pBind (itemsF fuel content g cols) fun ns => pOf (.ok (.Collection ns))

/-- The loop over item fragments in the two-or-more case of
`Parser::collection`. -/
def itemsF : Nat → List Char → TokGet → List (List Nat) → PRes (List Node)
  | 0, _, _, _ => none
  | _ + 1, _, _, [] => pOf (.ok [])
  | fuel + 1, content, g, col :: rest =>
    pBind (if hasBracket g col then reparseF fuel content g col
           else pOf (textP content g col)) fun n =>
    pBind (itemsF fuel content g rest) fun ns =>
    pOf (.ok (n :: ns))

end

/-- `Parser::parse`: collect the keys of the map, sort them, and reparse the
sorted key list.  The fuel is large enough for every input (each level
of the recursion walks a strictly shorter fragment). -/
def parse (content : List Char) (tokens : TokenMap) : Except ParsingError Node :=
  let keys := List.insertionSort (· ≤ ·) (tokens.map Prod.fst)
  match reparseF ((keys.length + 2) * (keys.length + 2)) content (tokGet tokens) keys with
  | some r => r
  | none => .error .NoFragment

end Parser

/-! ## Expander

Modelled from the spec: the expander (`bracoxide::expand`, called from
`main.rs`) is not among the given source files; the definitions below
follow §4.3 of the specification word for word. -/

/-- Modelled from the spec: the expand-stage error taxonomy — "a range
bound that fails to parse as an integer" (`NumConversionFailed` carrying
the original string). -/
inductive ExpandError where
  | NumConversionFailed (original : String)
deriving DecidableEq, Repr

/-- Parse a decimal-digit string as a non-negative integer; `none` is a
conversion failure. -/
def strToNat (s : String) : Option Nat :=
  if s.data ≠ [] ∧ s.data.all Char.isDigit then
    some (s.data.foldl (fun a c => a * 10 + (c.toNat - 48)) 0)
  else none

/-- Decimal digits of `n`, most significant first; the first argument is
fuel (`n + 1` always suffices). -/
def natDigits : Nat → Nat → List Char
  | 0, _ => []
  | fuel + 1, n =>
    if n < 10 then [Char.ofNat (48 + n)]
    else natDigits fuel (n / 10) ++ [Char.ofNat (48 + n % 10)]

/-- The decimal string form of a natural number. -/
def natToStr (n : Nat) : String := String.mk (natDigits (n + 1) n)

/-- Modelled from the spec: "produce the ascending sequence of their
decimal string forms for every integer in the inclusive interval
`[from, to]`; if `from > to` the produced sequence is empty (not an
error)". -/
def rangeSeq (a b : Nat) : List String :=
  if b < a then [] else (List.range (b - a + 1)).map fun k => natToStr (a + k)

/-- Modelled from the spec: the prefix-major, inside-middle,
postfix-minor enumeration — "outer loop over prefix alternatives, middle
loop over inside alternatives, inner loop over postfix alternatives,
concatenating `prefix+inside+postfix` for each combination and appending
to the result in that exact order". -/
def cartesianFold (as bs cs : List String) : List String :=
  as.foldl (fun acc a =>
    bs.foldl (fun acc b =>
      cs.foldl (fun acc c => acc ++ [a ++ b ++ c]) acc) acc) []

mutual

/-- Modelled from the spec (§4.3): `expand(node)` — pure recursive
evaluation, one case per node kind. -/
def expand : Parser.Node → Except ExpandError (List String)
  | .Text s => .ok [s]
  | .Range lo hi =>
    match strToNat lo with
    | none => .error (.NumConversionFailed lo)
    | some a =>
      match strToNat hi with
      | none => .error (.NumConversionFailed hi)
      | some b => .ok (rangeSeq a b)
  | .Collection items => expandItems items
  | .BraceExpansion p i s =>
    match expandOpt p with
    | .error e => .error e
    | .ok as =>
      match expandOpt i with
      | .error e => .error e
      | .ok bs =>
        match expandOpt s with
        | .error e => .error e
        | .ok cs => .ok (cartesianFold as bs cs)

/-- Modelled from the spec: an absent segment contributes `[""]`. -/
def expandOpt : Option Parser.Node → Except ExpandError (List String)
  | none => .ok [""]
  | some n => expand n

/-- Modelled from the spec: a `Collection` expands to the concatenation,
in item order, of the expansions of its items. -/
def expandItems : List Parser.Node → Except ExpandError (List String)
  | [] => .ok []
  | n :: rest =>
    match expand n with
    | .error e => .error e
    | .ok xs =>
      match expandItems rest with
      | .error e => .error e
      | .ok ys => .ok (xs ++ ys)

end

/-- Modelled from the spec (§6): the per-stage error union of the
convenience composition `run`. -/
inductive OxideError where
  | Tokenization (e : TokenizationError)
  | Parsing (e : Parser.ParsingError)
  | Expansion (e : ExpandError)
deriving DecidableEq, Repr

/-- Modelled from the spec (§6): `run(text)` composes
`tokenize → parse → expand` and stops at the first failure (the parser
construction rejects an empty token map with `NoTokens`, as
`Parser::from_tokenizer` does). -/
def run (s : String) : Except OxideError (List String) :=
  match tokenizeT s.data with
  | .error e => .error (.Tokenization e)
  | .ok m =>
    if m.isEmpty then .error (.Parsing .NoTokens)
    else
      match Parser.parse s.data m with
      | .error e => .error (.Parsing e)
      | .ok node =>
        match expand node with
        | .error e => .error (.Expansion e)
        | .ok xs => .ok xs

/-! ## The older tokenizer of src/lib.rs (free function `tokenize`) -/

namespace Lib

/-- `Token` from src/lib.rs. -/
inductive Token where
  | OBra
  | CBra
  | Comma
  | Text (s : String)
  | Number (s : String)
  | Range
deriving DecidableEq, Repr

/-- `TokenizationError` from src/lib.rs. -/
inductive TokenizationError where
  | EmptyContent
  | FormatNotSupported
  | BraceMismatch
  | NoBraces
  | Unpredicted
deriving DecidableEq, Repr

/-- The loop state of `tokenize` in src/lib.rs: emitted tokens, the
escape flag, the (opening, closing) counters and the (text, number)
buffers. -/
structure St where
  tokens : List Token
  isEscape : Bool
  count : Nat × Nat
  textBuf : String
  numBuf : String
deriving DecidableEq, Repr

/-- The initial loop state. -/
def initSt : St := { tokens := [], isEscape := false, count := (0, 0), textBuf := "", numBuf := "" }

/-- The `tokenize_buffers` closure of src/lib.rs (text buffer first,
then number buffer). -/
def flushBufs (st : St) : St :=
  let st := if st.textBuf ≠ "" then
      { st with tokens := st.tokens ++ [.Text st.textBuf], textBuf := "" }
    else st
  if st.numBuf ≠ "" then
    { st with tokens := st.tokens ++ [.Number st.numBuf], numBuf := "" }
  else st

/-- The scan loop of `tokenize` in src/lib.rs.  As with `scanT`, the
fuel only bounds the recursion and `content.length` renders it
unreachable. -/
def libScan : Nat → St → List Char → St
  | 0, st, _ => st
  | _ + 1, st, [] => st
  | fuel + 1, st, c :: rest =>
    if st.isEscape then
      libScan fuel { st with textBuf := st.textBuf.push c, numBuf := "", isEscape := false } rest
    else if c = '\\' then
      libScan fuel { st with isEscape := true } rest
    else if c = obC ∨ c = cbC ∨ c = ',' then
      let st := flushBufs st
      if c = obC then
        libScan fuel { st with count := (st.count.1 + 1, st.count.2), tokens := st.tokens ++ [.OBra] } rest
      else if c = cbC then
        libScan fuel { st with count := (st.count.1, st.count.2 + 1), tokens := st.tokens ++ [.CBra] } rest
      else
        libScan fuel { st with tokens := st.tokens ++ [.Comma] } rest
    else if c = '.' then
      if rest.head? = some '.' then
        let st := flushBufs st
        libScan fuel { st with tokens := st.tokens ++ [.Range] } rest.tail
      else
        libScan fuel { st with textBuf := st.textBuf.push '.' } rest
    else if c.isDigit then
      let st := if st.textBuf ≠ "" then
          { st with tokens := st.tokens ++ [.Text st.textBuf], textBuf := "" }
        else st
      libScan fuel { st with numBuf := st.numBuf.push c } rest
    else
      let st := if st.numBuf ≠ "" then
          { st with tokens := st.tokens ++ [.Number st.numBuf], numBuf := "" }
        else st
      libScan fuel { st with textBuf := st.textBuf.push c } rest

/-- `tokenize` from src/lib.rs: scan, then validate the final brace
counters (`(0,0) → NoBraces`, one side zero → `FormatNotSupported`,
unequal → `BraceMismatch`), then flush the buffers into the output. -/
def tokenize (s : String) : Except TokenizationError (List Token) :=
  if s.data.isEmpty then .error .EmptyContent
  else
    let st := libScan s.data.length initSt s.data
    if st.count.1 = 0 ∧ st.count.2 = 0 then .error .NoBraces
    else if st.count.1 = 0 ∨ st.count.2 = 0 then .error .FormatNotSupported
    else if st.count.1 ≠ st.count.2 then .error .BraceMismatch
    else .ok (flushBufs st).tokens

end Lib

/-! ## Auxiliary definitions used by the statements -/

/-- The parser the invariant claim describes: consume the keys of the
token map in the order the map yields them (its iteration order), with no
sort.  Compare with `Parser.parse`, which sorts the keys first. -/
def parseAsStored (content : List Char) (tokens : TokenMap) :
    Except Parser.ParsingError Parser.Node :=
  let keys := tokens.map Prod.fst
  match Parser.reparseF ((keys.length + 2) * (keys.length + 2)) content (Parser.tokGet tokens) keys with
  | some r => r
  | none => .error .NoFragment

/-- The final (opening, closing) brace counters of the scan of
src/lib.rs `tokenize`. -/
def libFinalCount (s : String) : Nat × Nat :=
  (Lib.libScan s.data.length Lib.initSt s.data).count

mutual

/-- Every `Collection` in the node has at least two items. -/
inductive GoodNode : Parser.Node → Prop where
  | text (s : String) : GoodNode (.Text s)
  | range (lo hi : String) : GoodNode (.Range lo hi)
  | brace (p i s : Option Parser.Node) :
      GoodOpt p → GoodOpt i → GoodOpt s → GoodNode (.BraceExpansion p i s)
  | coll (items : List Parser.Node) :
      2 ≤ items.length → GoodList items → GoodNode (.Collection items)

/-- `GoodNode` lifted to an optional child. -/
inductive GoodOpt : Option Parser.Node → Prop where
  | none : GoodOpt none
  | some (n : Parser.Node) : GoodNode n → GoodOpt (some n)

/-- `GoodNode` lifted to a list of children. -/
inductive GoodList : List Parser.Node → Prop where
  | nil : GoodList []
  | cons (n : Parser.Node) (ns : List Parser.Node) :
      GoodNode n → GoodList ns → GoodList (n :: ns)

end

/-- The items of the collection node inside a `BraceExpansion`
(observer used to compare parse results). -/
def insideItems : Parser.Node → List Parser.Node
  | .BraceExpansion _ (some (.Collection xs)) _ => xs
  | _ => []

/-- Is the node a literal-empty `Text`? -/
def isEmptyText : Parser.Node → Bool
  | .Text s => s = ""
  | _ => false

/-- Count of literal-empty `Text` items and total item count inside the
collection of a parsed `BraceExpansion`. -/
def emptyItemStats (r : Except Parser.ParsingError Parser.Node) : Option (Nat × Nat) :=
  match r with
  | .ok n => some (((insideItems n).countP isEmptyText), (insideItems n).length)
  | .error _ => none

end Brx

deriving instance DecidableEq for Except

/-! ## Helper lemmas -/

namespace Brx

theorem state_tokenizeBuffers (t : Tokenizer) : (tokenizeBuffers t).state = t.state := by
  simp only [tokenizeBuffers, tokenizeText, tokenizeNumber, insertTok]
  split <;> split <;> rfl

theorem findVal_perm {m1 m2 : TokenMap} (h : m1.Perm m2)
    (nd : (m1.map Prod.fst).Nodup) : ∀ k, findVal m1 k = findVal m2 k := by
  induction h with
  | nil => intro k; rfl
  | cons x h ih =>
    intro k
    simp only [List.map_cons, List.nodup_cons] at nd
    simp only [findVal]
    split
    · rfl
    · exact ih nd.2 k
  | swap x y l =>
    intro k
    simp only [List.map_cons, List.nodup_cons, List.mem_cons] at nd
    have hyx : ¬(y.1 = x.1) := fun hh => nd.1 (Or.inl hh)
    simp only [findVal]
    by_cases h1 : y.1 = k
    · by_cases h2 : x.1 = k
      · exact absurd (h1.trans h2.symm) hyx
      · simp [h1, h2]
    · simp [h1]
  | trans h1 h2 ih1 ih2 =>
    intro k
    have nd2 := ((h1.map Prod.fst).nodup_iff).mp nd
    exact (ih1 nd k).trans (ih2 nd2 k)

theorem foldl_append {α β : Type} (h : α → List β) :
    ∀ (l : List α) (acc : List β),
      l.foldl (fun acc x => acc ++ h x) acc = acc ++ l.flatMap h := by
  intro l
  induction l with
  | nil => intro acc; simp
  | cons x l ih => intro acc; simp [ih]

theorem flatMap_sing {α β : Type} (f : α → β) :
    ∀ l : List α, (l.flatMap fun x => [f x]) = l.map f := by
  intro l
  induction l with
  | nil => rfl
  | cons x l ih => simp [ih]

theorem inner_eq (a b : String) (cs : List String) (acc : List String) :
    cs.foldl (fun acc c => acc ++ [a ++ b ++ c]) acc = acc ++ cs.map (fun c => a ++ b ++ c) := by
  rw [foldl_append (fun c => [a ++ b ++ c]), flatMap_sing]

theorem middle_eq (a : String) (bs cs : List String) (acc : List String) :
    bs.foldl (fun acc b => cs.foldl (fun acc c => acc ++ [a ++ b ++ c]) acc) acc =
      acc ++ bs.flatMap (fun b => cs.map (fun c => a ++ b ++ c)) := by
  simp only [inner_eq]
  rw [foldl_append]

theorem outer_eq (as' bs cs : List String) (acc : List String) :
    as'.foldl (fun acc a =>
        bs.foldl (fun acc b => cs.foldl (fun acc c => acc ++ [a ++ b ++ c]) acc) acc) acc =
      acc ++ as'.flatMap (fun a => bs.flatMap (fun b => cs.map (fun c => a ++ b ++ c))) := by
  simp only [middle_eq]
  rw [foldl_append]

theorem cartesianFold_eq (as' bs cs : List String) :
    cartesianFold as' bs cs =
      as'.flatMap (fun a => bs.flatMap (fun b => cs.map (fun c => a ++ b ++ c))) := by
  unfold cartesianFold
  rw [outer_eq]
  simp

namespace Parser

theorem pBind_ok {α β : Type} {x : PRes α} {f : α → PRes β} {b : β}
    (h : pBind x f = some (.ok b)) : ∃ a, x = some (.ok a) ∧ f a = some (.ok b) := by
  match x with
  | none => simp [pBind] at h
  | some (.error e) => simp [pBind] at h
  | some (.ok a) => exact ⟨a, rfl, h⟩

theorem pOf_ok {α : Type} {x : Except ParsingError α} {b : α}
    (h : pOf x = some (.ok b)) : x = .ok b := by
  simpa [pOf] using h

theorem textP_shape {content : List Char} {g : TokGet} {frag : List Nat} {n : Node}
    (h : textP content g frag = .ok n) : ∃ s, n = .Text s := by
  unfold textP at h
  split at h
  · exact absurd h (by simp)
  · match hf : (frag.foldlM (textStep content g) "") with
    | .error e => rw [hf] at h; simp [Except.map] at h
    | .ok s => rw [hf] at h; simp [Except.map] at h; exact ⟨s, h.symm⟩

theorem rangeP_shape {content : List Char} {g : TokGet} {frag : List Nat} {n : Node}
    (h : rangeP content g frag = .ok n) : ∃ lo hi, n = .Range lo hi := by
  unfold rangeP at h
  split at h
  · exact absurd h (by simp)
  · match hf : (frag.foldlM (rangeStep content g)
        { start := true, pos := (0, 0), rstate := .First, lo := "", hi := "" }) with
    | .error e => rw [hf] at h; simp [bind, Except.bind] at h
    | .ok acc =>
      rw [hf] at h
      simp only [bind, Except.bind] at h
      split at h
      · exact absurd h (by simp)
      · simp at h; exact ⟨acc.lo, acc.hi, h.symm⟩

end Parser

theorem parserGoodAux : ∀ fuel : Nat,
    (∀ (content : List Char) (g : Parser.TokGet) (frag : List Nat) (node : Parser.Node),
        Parser.reparseF fuel content g frag = some (.ok node) → GoodNode node) ∧
    (∀ (content : List Char) (g : Parser.TokGet) (frag : List Nat) (node : Parser.Node),
        Parser.collectionF fuel content g frag = some (.ok node) → GoodNode node) ∧
    (∀ (content : List Char) (g : Parser.TokGet) (cols : List (List Nat)) (ns : List Parser.Node),
        Parser.itemsF fuel content g cols = some (.ok ns) →
          GoodList ns ∧ ns.length = cols.length) := by
  intro fuel
  induction fuel with
  | zero =>
    refine ⟨?_, ?_, ?_⟩
    · intro content g frag node h; simp [Parser.reparseF] at h
    · intro content g frag node h; simp [Parser.collectionF] at h
    · intro content g cols ns h; simp [Parser.itemsF] at h
  | succ n ih =>
    obtain ⟨ihr, ihc, ihi⟩ := ih
    refine ⟨?_, ?_, ?_⟩
    · intro content g frag node h
      simp only [Parser.reparseF] at h
      split at h
      · exact absurd h (by simp [Parser.pOf])
      · obtain ⟨sp, hsp, h⟩ := Parser.pBind_ok h
        obtain ⟨preN, hpre, h⟩ := Parser.pBind_ok h
        obtain ⟨insN, hins, h⟩ := Parser.pBind_ok h
        obtain ⟨postN, hpost, h⟩ := Parser.pBind_ok h
        have hnode : Parser.Node.BraceExpansion preN insN postN = node := by
          simpa [Parser.pOf] using h
        rw [← hnode]
        refine GoodNode.brace _ _ _ ?_ ?_ ?_
        · rcases hp : sp.1 with _ | pf
          · rw [hp] at hpre
            replace hpre : Parser.pOf (.ok none) = some (.ok preN) := hpre
            have : (none : Option Parser.Node) = preN := by simpa [Parser.pOf] using hpre
            rw [← this]; exact GoodOpt.none
          · rw [hp] at hpre
            replace hpre :
                Parser.pOf (Except.map some (Parser.textP content g pf)) = some (.ok preN) := hpre
            match ht : Parser.textP content g pf with
            | .error e => rw [ht] at hpre; simp [Parser.pOf, Except.map] at hpre
            | .ok tn =>
              rw [ht] at hpre
              simp only [Parser.pOf, Except.map, Option.some.injEq, Except.ok.injEq] at hpre
              obtain ⟨s, hs⟩ := Parser.textP_shape ht
              rw [← hpre, hs]
              exact GoodOpt.some _ (GoodNode.text s)
        · rcases hp : sp.2.1 with _ | inf
          · rw [hp] at hins
            replace hins : Parser.pOf (.ok none) = some (.ok insN) := hins
            have : (none : Option Parser.Node) = insN := by simpa [Parser.pOf] using hins
            rw [← this]; exact GoodOpt.none
          · rw [hp] at hins
            replace hins :
                Parser.pBind (Parser.collectionF n content g inf)
                  (fun m => Parser.pOf (.ok (some m))) = some (.ok insN) := hins
            obtain ⟨m, hm, hins⟩ := Parser.pBind_ok hins
            have : (some m : Option Parser.Node) = insN := by simpa [Parser.pOf] using hins
            rw [← this]
            exact GoodOpt.some _ (ihc content g inf m hm)
        · rcases hp : sp.2.2 with _ | sf
          · rw [hp] at hpost
            replace hpost : Parser.pOf (.ok none) = some (.ok postN) := hpost
            have : (none : Option Parser.Node) = postN := by simpa [Parser.pOf] using hpost
            rw [← this]; exact GoodOpt.none
          · rw [hp] at hpost
            replace hpost :
                (if Parser.hasBracket g sf = true then
                    Parser.pBind (Parser.reparseF n content g sf)
                      (fun m => Parser.pOf (.ok (some m)))
                  else Parser.pOf (Except.map some (Parser.textP content g sf))) =
                  some (.ok postN) := hpost
            by_cases hb : Parser.hasBracket g sf = true
            · rw [if_pos hb] at hpost
              obtain ⟨m, hm, hpost⟩ := Parser.pBind_ok hpost
              have : (some m : Option Parser.Node) = postN := by simpa [Parser.pOf] using hpost
              rw [← this]
              exact GoodOpt.some _ (ihr content g sf m hm)
            · rw [if_neg hb] at hpost
              match ht : Parser.textP content g sf with
              | .error e => rw [ht] at hpost; simp [Parser.pOf, Except.map] at hpost
              | .ok tn =>
                rw [ht] at hpost
                simp only [Parser.pOf, Except.map, Option.some.injEq, Except.ok.injEq] at hpost
                obtain ⟨s, hs⟩ := Parser.textP_shape ht
                rw [← hpost, hs]
                exact GoodOpt.some _ (GoodNode.text s)
    · intro content g frag node h
      simp only [Parser.collectionF] at h
      split at h
      · exact absurd h (by simp [Parser.pOf])
      · split at h
        · exact absurd h (by simp [Parser.pOf])
        · rename_i col
          split at h
          · obtain ⟨lo, hi, hr⟩ := Parser.rangeP_shape (Parser.pOf_ok h)
            rw [hr]; exact GoodNode.range lo hi
          · obtain ⟨s, hs⟩ := Parser.textP_shape (Parser.pOf_ok h)
            rw [hs]; exact GoodNode.text s
        · rename_i h1 h2
          obtain ⟨ns, hns, h⟩ := Parser.pBind_ok h
          have hnode : Parser.Node.Collection ns = node := by
            simpa [Parser.pOf] using h
          rw [← hnode]
          obtain ⟨hgood, hlen⟩ := ihi content g _ ns hns
          refine GoodNode.coll ns ?_ hgood
          rw [hlen]
          rcases hsc : Parser.colsOf (Parser.collSplit g frag) with _ | ⟨c1, _ | ⟨c2, cr⟩⟩
          · exact absurd hsc h1
          · exact absurd hsc (h2 c1)
          · simp
    · intro content g cols ns h
      rcases cols with _ | ⟨col, rest⟩
      · simp [Parser.itemsF, Parser.pOf] at h
        rw [h]
        exact ⟨GoodList.nil, rfl⟩
      · simp only [Parser.itemsF] at h
        obtain ⟨nd, hnd, h⟩ := Parser.pBind_ok h
        obtain ⟨ns2, hns2, h⟩ := Parser.pBind_ok h
        have hns : nd :: ns2 = ns := by simpa [Parser.pOf] using h
        obtain ⟨hg2, hl2⟩ := ihi content g rest ns2 hns2
        have hgood : GoodNode nd := by
          split at hnd
          · exact ihr content g col nd hnd
          · obtain ⟨s, hs⟩ := Parser.textP_shape (Parser.pOf_ok hnd)
            rw [hs]; exact GoodNode.text s
        rw [← hns]
        exact ⟨GoodList.cons nd ns2 hgood hg2, by simp [hl2]⟩

end Brx

/-! ## Fidelity checks against the unit tests of the repository -/

namespace Brx

/-- The embedding reproduces `test_simple_expansion` of
src/tokenizer.rs. -/
theorem fidelity_tokenizer_simple_expansion :
    tokenizeT "A\x7bB,C\x7dD\x7b13..25\x7d".data =
      .ok [(0, .Text 1), (1, .OpeningBracket), (2, .Text 1), (3, .Comma), (4, .Text 1),
        (5, .ClosingBracket), (6, .Text 1), (7, .OpeningBracket), (8, .Number 2),
        (10, .Range), (12, .Number 2), (14, .ClosingBracket)] := rfl

/-- The embedding reproduces `test_empty_middle` of src/tokenizer.rs. -/
theorem fidelity_tokenizer_empty_middle :
    tokenizeT "A\x7bB,,C\x7dD".data =
      .ok [(0, .Text 1), (1, .OpeningBracket), (2, .Text 1), (3, .Empty 2), (5, .Text 1),
        (6, .ClosingBracket), (7, .Text 1)] := rfl

/-- The embedding reproduces test case 9 of `test_tokenize` of
src/lib.rs (escaped comma). -/
theorem fidelity_lib_escaped_comma :
    Lib.tokenize "A\x7b1..3\x7d\\,B\x7b2,5\x7d" =
      .ok [.Text "A", .OBra, .Number "1", .Range, .Number "3", .CBra, .Text ",B",
        .OBra, .Number "2", .Comma, .Number "5", .CBra] := rfl

set_option maxHeartbeats 2000000 in
/-- The pipeline reproduces the nested end-to-end scenario of the
specification: A-brace-B-comma-C-brace-D-comma-E-close-F-comma-G-close-H
expands to ABH, ACDFH, ACEFH, AGH. -/
theorem fidelity_run_nested :
    Brx.run "A\x7bB,C\x7bD,E\x7dF,G\x7dH" = .ok ["ABH", "ACDFH", "ACEFH", "AGH"] := by
  decide

end Brx

/-! ## The claims -/

namespace Brx

/-- C1 (corrected), counterexample: the tokens of the input made of an
opening brace, the letter a, a comma, the letter b and a closing brace
form a position-keyed map; handing the parser that map with its entries
listed in decreasing position order (a legitimate iteration order of an
unordered map) still parses correctly, because `Parser::parse` sorts the
keys — whereas consuming the entries in the stored order without the
sort (`parseAsStored`) fails with `ExtraClosingBracket`.  So the tokens
are not an ordered sequence consumed as produced: the order is recovered
by the re-sort in `Parser::parse`. -/
theorem bracoxide_c1_counterexample :
    tokenizeT "\x7ba,b\x7d".data =
      .ok [(0, .OpeningBracket), (1, .Text 1), (2, .Comma), (3, .Text 1), (4, .ClosingBracket)] ∧
    Parser.parse "\x7ba,b\x7d".data
        [(4, .ClosingBracket), (3, .Text 1), (2, .Comma), (1, .Text 1), (0, .OpeningBracket)] =
      .ok (.BraceExpansion none (some (.Collection [.Text "a", .Text "b"])) none) ∧
    parseAsStored "\x7ba,b\x7d".data
        [(4, .ClosingBracket), (3, .Text 1), (2, .Comma), (1, .Text 1), (0, .OpeningBracket)] =
      .error (.ExtraClosingBracket 4) :=
  ⟨rfl, rfl, rfl⟩

/-- C1 (amended): tokens are stored in a position-keyed unordered map
(`TokenMap = HashMap<usize, TokenKind>`), and `Parser::parse` recovers
increasing-position order by collecting and sorting the keys, so its
result does not depend on the iteration order of the map: any two
listings of the same map (permutations with distinct keys) parse to the
same result. -/
theorem bracoxide_c1_parse_sorts_keys :
    ∀ (content : List Char) (m1 m2 : TokenMap),
      m1.Perm m2 → (m1.map Prod.fst).Nodup →
      Parser.parse content m1 = Parser.parse content m2 := by
  intro content m1 m2 hperm nd
  have hget : Parser.tokGet m1 = Parser.tokGet m2 :=
    funext fun k => findVal_perm hperm nd k
  have hkeysperm : (m1.map Prod.fst).Perm (m2.map Prod.fst) := hperm.map Prod.fst
  have hkeys : List.insertionSort (· ≤ ·) (m1.map Prod.fst) =
      List.insertionSort (· ≤ ·) (m2.map Prod.fst) :=
    List.eq_of_perm_of_sorted
      ((List.perm_insertionSort _ _).trans
        (hkeysperm.trans (List.perm_insertionSort _ _).symm))
      (List.sorted_insertionSort _ _) (List.sorted_insertionSort _ _)
  unfold Parser.parse
  rw [hget, hkeys]

/-- C1 witness: the token map of the brace-a-comma-b input parses the
same whether its entries are iterated in increasing or decreasing
position order. -/
theorem bracoxide_c1_witness :
    Parser.parse "\x7ba,b\x7d".data
        [(0, .OpeningBracket), (1, .Text 1), (2, .Comma), (3, .Text 1), (4, .ClosingBracket)] =
      Parser.parse "\x7ba,b\x7d".data
        [(4, .ClosingBracket), (3, .Text 1), (2, .Comma), (1, .Text 1), (0, .OpeningBracket)] :=
  bracoxide_c1_parse_sorts_keys _ _ _ (by decide) (by decide)

set_option maxHeartbeats 2000000 in
/-- C2 (confirmed; expander modelled from the spec): `expand` of a
`BraceExpansion` whose three segment expansions succeed is the Cartesian
product enumerated prefix-major, inside-middle, postfix-minor (an absent
segment contributing the singleton empty string via `expandOpt`), and
`run` of the A-braceBC-D-brace13to15 input yields exactly
ABD13, ABD14, ABD15, ACD13, ACD14, ACD15 in that order. -/
theorem bracoxide_c2_cartesian_order :
    (∀ (p i s : Option Parser.Node) (as' bs cs : List String),
        expandOpt p = .ok as' → expandOpt i = .ok bs → expandOpt s = .ok cs →
        expand (.BraceExpansion p i s) =
          .ok (as'.flatMap fun a => bs.flatMap fun b => cs.map fun c => a ++ b ++ c)) ∧
    Brx.run "A\x7bB,C\x7dD\x7b13..15\x7d" =
      .ok ["ABD13", "ABD14", "ABD15", "ACD13", "ACD14", "ACD15"] := by
  constructor
  · intro p i s as' bs cs hp hi hs
    simp only [expand, hp, hi, hs]
    rw [cartesianFold_eq]
  · decide

/-- C2 witness: the Cartesian-order equation applied at a concrete
`BraceExpansion` with prefix X, inside alternatives 1 and 2, and no
postfix. -/
theorem bracoxide_c2_witness :
    expand (.BraceExpansion (some (.Text "X"))
        (some (.Collection [.Text "1", .Text "2"])) none) =
      .ok (["X"].flatMap fun a => ["1", "2"].flatMap fun b => [""].map fun c => a ++ b ++ c) :=
  bracoxide_c2_cartesian_order.1 (some (.Text "X"))
    (some (.Collection [.Text "1", .Text "2"])) none
    ["X"] ["1", "2"] [""] rfl rfl rfl

/-- C3 (confirmed, for the free `tokenize` of src/lib.rs): at end of
input the brace validation distinguishes three failures by the final
(opening, closing) counters — both zero gives `NoBraces`, exactly one
zero gives `FormatNotSupported`, both nonzero but unequal gives
`BraceMismatch` — and the input of an opening brace followed by
a-comma-b-comma-c-comma-d fails with `FormatNotSupported`. -/
theorem bracoxide_c3_count_trichotomy :
    (∀ s : String, s.data ≠ [] →
      ((libFinalCount s).1 = 0 ∧ (libFinalCount s).2 = 0 →
        Lib.tokenize s = .error .NoBraces) ∧
      ((libFinalCount s).1 = 0 ∧ (libFinalCount s).2 ≠ 0 ∨
        (libFinalCount s).1 ≠ 0 ∧ (libFinalCount s).2 = 0 →
        Lib.tokenize s = .error .FormatNotSupported) ∧
      ((libFinalCount s).1 ≠ 0 → (libFinalCount s).2 ≠ 0 →
        (libFinalCount s).1 ≠ (libFinalCount s).2 →
        Lib.tokenize s = .error .BraceMismatch)) ∧
    Lib.tokenize "\x7ba, b, c, d" = .error .FormatNotSupported := by
  constructor
  · intro s hne
    have hne2 : s.data.isEmpty = false := by simp [List.isEmpty_iff, hne]
    unfold Lib.tokenize libFinalCount
    rw [hne2]
    simp only [Bool.false_eq_true, if_false]
    refine ⟨?_, ?_, ?_⟩
    · intro h
      split_ifs <;> first | rfl | omega
    · intro h
      split_ifs <;> first | rfl | omega
    · intro h1 h2 h3
      split_ifs <;> first | rfl | omega
  · decide

/-- C3 witness: a lone opening brace followed by the letter a has
counters (1, 0), and the trichotomy yields `FormatNotSupported`. -/
theorem bracoxide_c3_witness :
    Lib.tokenize "\x7ba" = .error .FormatNotSupported :=
  (bracoxide_c3_count_trichotomy.1 "\x7ba" (by decide)).2.1
    (Or.inr ⟨by decide, by decide⟩)

/-- C4 (amended): in `Tokenizer::tokenize` a dot read in the `Text`
state extends the text run; a dot read in the `None` or `Number` state
flushes the digit buffer and looks one character ahead — another dot
gives a `Range` token covering both characters, anything else makes the
dot an ordinary text character; but a dot read in the `Opening`,
`Closing` or `Comma` state starts a text run with no lookahead, so a
double dot right after a brace or comma is tokenized as text, not as a
range operator. -/
theorem bracoxide_c4_dot_rules :
    (∀ (fuel : Nat) (t : Tokenizer) (i : Nat) (rest : List Char),
        t.state = .Text →
        scanT (fuel + 1) t i ('.' :: rest) =
          scanT fuel { t with textCut := (t.textCut.1, t.textCut.2 + 1) } (i + 1) rest) ∧
    (∀ (fuel : Nat) (t : Tokenizer) (i : Nat) (rest : List Char),
        t.state = .None ∨ t.state = .Number →
        scanT (fuel + 1) t i ('.' :: '.' :: rest) =
          scanT fuel { insertTok (tokenizeNumber t) i .Range with state := .None } (i + 2) rest) ∧
    (∀ (fuel : Nat) (t : Tokenizer) (i : Nat) (c : Char) (rest : List Char),
        (t.state = .None ∨ t.state = .Number) → c ≠ '.' →
        scanT (fuel + 1) t i ('.' :: c :: rest) =
          scanT fuel (textStart (tokenizeNumber t) i) (i + 1) (c :: rest)) ∧
    (∀ (fuel : Nat) (t : Tokenizer) (i : Nat) (rest : List Char),
        t.state = .Opening ∨ t.state = .Closing ∨ t.state = .Comma →
        scanT (fuel + 1) t i ('.' :: rest) = scanT fuel (textStart t i) (i + 1) rest) := by
  refine ⟨?_, ?_, ?_, ?_⟩
  · intro fuel t i rest h
    simp [scanT, h]
  · rintro fuel t i rest (h | h) <;> simp [scanT, h]
  · rintro fuel t i c rest (h | h) hc <;> simp [scanT, h, hc]
  · rintro fuel t i rest (h | h | h) <;> simp [scanT, h]

/-- C4 witness: in the initial (`None`) state a dot followed by a dot
produces a `Range` token at position 0 covering both characters. -/
theorem bracoxide_c4_witness :
    scanT 1 initTokenizer 0 ['.', '.'] =
      scanT 0 { insertTok (tokenizeNumber initTokenizer) 0 .Range with state := .None } 2 [] :=
  bracoxide_c4_dot_rules.2.1 0 initTokenizer 0 [] (Or.inl rfl)

/-- C4 counterexample: in the input brace-dot-dot-brace the first dot is
read in the `Opening` state (not accumulating text) and is followed by
another dot, yet no `RangeOperator` token is produced: the dots become a
`Text` token of length 2. -/
theorem bracoxide_c4_counterexample :
    tokenizeT "\x7b..\x7d".data =
      .ok [(0, .OpeningBracket), (1, .Text 2), (3, .ClosingBracket)] ∧
    tokenizeT "\x7b..\x7d".data ≠
      .ok [(0, .OpeningBracket), (1, .Range), (3, .ClosingBracket)] :=
  ⟨rfl, by decide⟩

/-- C5 (amended): in `Tokenizer::tokenize` a comma read while no brace
group is open (opening count zero, or equal to the closing count) and
not right after an opening brace is treated as literal text — it extends
a pending text run or starts one — and never yields a `Comma` token;
only a comma inside an open group, not after an opening brace, not
followed by another comma and not followed by a closing brace, emits the
ordinary `Comma` separator token. -/
theorem bracoxide_c5_comma_rules :
    (∀ (fuel : Nat) (t : Tokenizer) (i : Nat) (rest : List Char),
        t.state ≠ .Escape → t.state ≠ .Opening →
        (t.count.1 = 0 ∨ t.count.1 = t.count.2) → t.textCut.2 ≥ 1 →
        scanT (fuel + 1) t i (',' :: rest) =
          scanT fuel { t with textCut := (t.textCut.1, t.textCut.2 + 1) } (i + 1) rest) ∧
    (∀ (fuel : Nat) (t : Tokenizer) (i : Nat) (rest : List Char),
        t.state ≠ .Escape → t.state ≠ .Opening →
        (t.count.1 = 0 ∨ t.count.1 = t.count.2) → t.textCut.2 = 0 →
        scanT (fuel + 1) t i (',' :: rest) =
          scanT fuel (textStart (tokenizeBuffers t) i) (i + 1) rest) ∧
    (∀ (fuel : Nat) (t : Tokenizer) (i : Nat) (c : Char) (rest : List Char),
        t.state ≠ .Escape → t.state ≠ .Opening →
        ¬(t.count.1 = 0 ∨ t.count.1 = t.count.2) → c ≠ ',' → c ≠ cbC →
        scanT (fuel + 1) t i (',' :: c :: rest) =
          scanT fuel { insertTok (tokenizeBuffers t) i .Comma with state := .Comma }
            (i + 1) (c :: rest)) := by
  refine ⟨?_, ?_, ?_⟩
  · intro fuel t i rest h1 h2 h3 h4
    simp [scanT, h1, h2, h3, h4, obC, cbC]
  · intro fuel t i rest h1 h2 h3 h4
    simp [scanT, h1, h2, h3, h4, obC, cbC]
  · intro fuel t i c rest h1 h2 h3 hc hcb
    simp [scanT, h1, h2, h3, hc, hcb, countCommas,
      (by decide : (',' : Char) ≠ obC), (by decide : (',' : Char) ≠ cbC)]

/-- C5 witness: inside an open brace group (counters (1, 0)), after a
text run, a comma followed by the letter b emits the ordinary `Comma`
token. -/
theorem bracoxide_c5_witness :
    scanT 2 ({ state := .Text, textCut := (1, 1), numberCut := (0, 0),
               count := (1, 0), tokens := [(0, .OpeningBracket)] }) 2 [',', 'b'] =
      scanT 1 ({ insertTok
                   (tokenizeBuffers
                     ({ state := .Text, textCut := (1, 1), numberCut := (0, 0),
                        count := (1, 0), tokens := [(0, .OpeningBracket)] }))
                   2 .Comma with
                 state := .Comma }) 3 ['b'] :=
  bracoxide_c5_comma_rules.2.2 1 _ 2 'b' [] (by decide) (by decide) (by decide)
    (by decide) (by decide)

/-- C5 counterexample: in the input brace-A-brace-comma-B the comma at
position 3 is unescaped, does not follow an opening brace and does not
follow another comma, yet no `Comma` token is emitted for it — both
brace counters are equal there (no group open), so the comma becomes
literal text starting the `Text` token of length 2 at position 3. -/
theorem bracoxide_c5_counterexample :
    tokenizeT "\x7bA\x7d,B".data =
      .ok [(0, .OpeningBracket), (1, .Text 1), (2, .ClosingBracket), (3, .Text 2)] ∧
    ([(0, TokenKind.OpeningBracket), (1, TokenKind.Text 1), (2, TokenKind.ClosingBracket),
        (3, TokenKind.Text 2)].map Prod.snd).count TokenKind.Comma = 0 :=
  ⟨rfl, by decide⟩

/-- C6 (amended): an `Empty(n)` token met at top level of a brace body
(`count.0 = count.1 + 1`) terminates the preceding item and contributes
exactly ONE item fragment, namely the singleton fragment of the token
itself, regardless of n; that fragment parses through `Parser::text` to
a single literal-empty `Text` item (the `Empty` token contributes the
empty string); on the a-comma-comma-b body, whose `Empty` token has
n = 2, the resulting collection has 3 items, exactly one of them
empty. -/
theorem bracoxide_c6_empty_slot_one_item :
    (∀ (g : Parser.TokGet) (st : Parser.CollSt) (ti len : Nat),
        g ti = some (.Empty len) → st.count.1 = st.count.2 + 1 →
        Parser.collStep g st ti =
          { st with
              collections := st.collections ++
                (if st.current.isEmpty then [] else [st.current]) ++ [[ti]],
              current := [] }) ∧
    (∀ (content : List Char) (g : Parser.TokGet) (ti len : Nat),
        g ti = some (.Empty len) →
        Parser.textP content g [ti] = .ok (.Text "")) ∧
    emptyItemStats (Parser.parse "\x7ba,,b\x7d".data
      [(0, .OpeningBracket), (1, .Text 1), (2, .Empty 2), (4, .Text 1), (5, .ClosingBracket)]) =
      some (1, 3) := by
  refine ⟨?_, ?_, rfl⟩
  · intro g st ti len hg hc
    simp [Parser.collStep, hg, hc]
  · intro content g ti len hg
    simp [Parser.textP, Parser.textStep, hg]
    rfl

/-- C6 witness: the split-step equation and the text parse of a
singleton `Empty` fragment, applied on the token map of the
a-comma-comma-b body at its `Empty(2)` token. -/
theorem bracoxide_c6_witness :
    Parser.collStep (Parser.tokGet [(2, .Empty 2)])
        { pos := (0, 0), count := (1, 0), collections := [[1]], current := [] } 2 =
      { pos := (0, 0), count := (1, 0), collections := [[1], [2]], current := [] } ∧
    Parser.textP "\x7ba,,b\x7d".data (Parser.tokGet [(2, .Empty 2)]) [2] = .ok (.Text "") := by
  constructor
  · have h := bracoxide_c6_empty_slot_one_item.1 (Parser.tokGet [(2, .Empty 2)])
      { pos := (0, 0), count := (1, 0), collections := [[1]], current := [] } 2 2 rfl rfl
    simpa using h
  · exact bracoxide_c6_empty_slot_one_item.2.1 "\x7ba,,b\x7d".data _ 2 2 rfl

/-- C6 counterexample: the a-comma-comma-b body tokenizes with an
`EmptySlot` token of run length 2, yet the parsed collection holds only
ONE literal-empty `Text` item (3 items in all: a, the empty string, b) —
not the two empty items the claim requires for n = 2. -/
theorem bracoxide_c6_counterexample :
    tokenizeT "\x7ba,,b\x7d".data =
      .ok [(0, .OpeningBracket), (1, .Text 1), (2, .Empty 2), (4, .Text 1), (5, .ClosingBracket)] ∧
    Parser.parse "\x7ba,,b\x7d".data
        [(0, .OpeningBracket), (1, .Text 1), (2, .Empty 2), (4, .Text 1), (5, .ClosingBracket)] =
      .ok (.BraceExpansion none
        (some (.Collection [.Text "a", .Text "", .Text "b"])) none) ∧
    emptyItemStats (Parser.parse "\x7ba,,b\x7d".data
        [(0, .OpeningBracket), (1, .Text 1), (2, .Empty 2), (4, .Text 1), (5, .ClosingBracket)]) ≠
      some (2, 4) :=
  ⟨rfl, rfl, by decide⟩

/-- C7 (confirmed): whenever the scan is in the `Opening` state (the
previous token was an opening brace with nothing in between) and the
next character is a closing brace, `Tokenizer::tokenize` rejects the
input with `EmptyBraces`; in particular the two-character brace pair
input fails with `EmptyBraces`. -/
theorem bracoxide_c7_empty_braces :
    (∀ (fuel : Nat) (t : Tokenizer) (i : Nat) (rest : List Char),
        t.state = .Opening →
        scanT (fuel + 1) t i (cbC :: rest) = .error .EmptyBraces) ∧
    tokenizeT "\x7b\x7d".data = .error .EmptyBraces := by
  constructor
  · intro fuel t i rest h
    simp [scanT, h, cbC, obC]
  · rfl

/-- C7 witness: the step equation applied at the state reached right
after scanning one opening brace. -/
theorem bracoxide_c7_witness :
    scanT 1 ({ state := .Opening, textCut := (0, 0), numberCut := (0, 0),
               count := (1, 0), tokens := [(0, .OpeningBracket)] }) 1 [cbC] =
      .error .EmptyBraces :=
  bracoxide_c7_empty_braces.1 0 _ 1 [] rfl

/-- C8 (confirmed): every `Collection` node anywhere in a tree produced
by `Parser::parse` has at least two items (`GoodNode`); a brace body
with exactly one top-level item degenerates into that item itself —
`Range` when its tokens contain a `RangeOperator` (the 3-dotdot-5 body
parses to `Range 3 5`), otherwise `Text` (the one-letter body parses to
`Text a`) — and is never wrapped in a one-element `Collection`. -/
theorem bracoxide_c8_collection_two_items :
    (∀ (content : List Char) (tokens : TokenMap) (node : Parser.Node),
        Parser.parse content tokens = .ok node → GoodNode node) ∧
    Parser.parse "\x7ba\x7d".data [(0, .OpeningBracket), (1, .Text 1), (2, .ClosingBracket)] =
      .ok (.BraceExpansion none (some (.Text "a")) none) ∧
    Parser.parse "\x7b3..5\x7d".data
        [(0, .OpeningBracket), (1, .Number 1), (2, .Range), (4, .Number 1), (5, .ClosingBracket)] =
      .ok (.BraceExpansion none (some (.Range "3" "5")) none) := by
  refine ⟨?_, rfl, rfl⟩
  intro content tokens node h
  simp only [Parser.parse] at h
  split at h
  · rename_i r heq
    rw [h] at heq
    exact (parserGoodAux _).1 content (Parser.tokGet tokens) _ node heq
  · simp at h

/-- C8 witness: the invariant applied to the parse of the a-comma-b
body. -/
theorem bracoxide_c8_witness :
    GoodNode (.BraceExpansion none (some (.Collection [.Text "a", .Text "b"])) none) :=
  bracoxide_c8_collection_two_items.1 "\x7ba,b\x7d".data
    [(0, .OpeningBracket), (1, .Text 1), (2, .Comma), (3, .Text 1), (4, .ClosingBracket)]
    _ rfl

/-- C9 (confirmed): the end-of-input validation of `Tokenizer::tokenize`
checks the escape state first — whenever the scan ends in the `Escape`
state the call fails with `NothingToEscape`, before and regardless of
the brace-count validation; a lone backslash (counters (0, 0), which the
count checks would report as `NoBraces`) and an opening brace followed
by a backslash (counters (1, 0), which they would report as
`BracesDontMatch`) both fail with `NothingToEscape`. -/
theorem bracoxide_c9_escape_first :
    (∀ (cs : List Char) (t : Tokenizer), cs ≠ [] →
        scanT cs.length initTokenizer 0 cs = .ok t →
        t.state = .Escape →
        tokenizeT cs = .error .NothingToEscape) ∧
    tokenizeT "\\".data = .error .NothingToEscape ∧
    tokenizeT "\x7b\\".data = .error .NothingToEscape := by
  refine ⟨?_, rfl, rfl⟩
  intro cs t hne hscan hstate
  simp [tokenizeT, tokenizeRun, hscan, state_tokenizeBuffers, hstate, hne, Except.map]

/-- C9 witness: the general statement applied to the letter-a-backslash
input, whose scan ends in the `Escape` state. -/
theorem bracoxide_c9_witness :
    tokenizeT "a\\".data = .error .NothingToEscape :=
  bracoxide_c9_escape_first.1 "a\\".data
    ({ state := .Escape, textCut := (0, 0), numberCut := (0, 0),
       count := (0, 0), tokens := [(0, .Text 1)] })
    (by decide) (by decide) rfl

/-- C10 (confirmed): the `EmptyBraces` check fires during the scan, so
it takes priority over the end-of-input brace-count validation: both the
brace-brace-close input and the brace-close-close input contain an
opening brace directly followed by a closing brace, have unequal overall
brace counts, and yield `EmptyBraces` rather than `BracesDontMatch`. -/
theorem bracoxide_c10_empty_braces_priority :
    ("\x7b\x7b\x7d".data.count obC ≠ "\x7b\x7b\x7d".data.count cbC ∧
      tokenizeT "\x7b\x7b\x7d".data = .error .EmptyBraces) ∧
    ("\x7b\x7d\x7d".data.count obC ≠ "\x7b\x7d\x7d".data.count cbC ∧
      tokenizeT "\x7b\x7d\x7d".data = .error .EmptyBraces) :=
  ⟨⟨by decide, rfl⟩, ⟨by decide, rfl⟩⟩

end Brx
